import Mathlib

/-!
Verification of the disaster-response resource allocator (PBL_Code.py).

The program has two components with nontrivial logic:
* `haversine lat1 lon1 lat2 lon2` — great-circle distance in kilometers,
  modelled over the real numbers;
* `allocate_resources incidents resources` — a greedy allocation engine
  that sorts incidents by priority, scores candidate resources per
  incident, and assigns capacity, mutating resource capacities in place.

The engine is embedded polymorphically over a linear ordered field `K`
(the program's floats are idealised as exact arithmetic; instantiating
`K := ℝ` with the haversine distance recovers the program, while
`K := ℚ` gives an executable model for concrete test inputs).  Python's
mutable `Resource` objects, shared by reference between the caller's
list and the allocation loop, are modelled by threading the resource
list through the computation explicitly and identifying each object
with its index in that list.  Python's stable `sorted` / `list.sort` is
modelled by `List.insertionSort`, which is stable.
-/

namespace PBL

/-! ### Distance function (source lines 8–16) -/

/-- `math.radians`: degrees to radians. -/
noncomputable def radians (x : ℝ) : ℝ := x * Real.pi / 180

/-- `math.atan2 y x`, the two-argument arctangent (signed zeros ignored). -/
noncomputable def atan2 (y x : ℝ) : ℝ :=
  if 0 < x then Real.arctan (y / x)
  else if x < 0 then
    (if 0 ≤ y then Real.arctan (y / x) + Real.pi else Real.arctan (y / x) - Real.pi)
  else
    (if 0 < y then Real.pi / 2 else if y < 0 then -(Real.pi / 2) else 0)

/-- The intermediate value `a` of the haversine formula (source line 14):
`a = sin²(Δφ/2) + cos φ1 · cos φ2 · sin²(Δλ/2)`. -/
noncomputable def hav_a (lat1 lon1 lat2 lon2 : ℝ) : ℝ :=
  Real.sin (radians (lat2 - lat1) / 2) ^ 2 +
    Real.cos (radians lat1) * Real.cos (radians lat2) *
      Real.sin (radians (lon2 - lon1) / 2) ^ 2

/-- `haversine` (source lines 8–16): `R * c` with
`c = 2 * atan2 (sqrt a) (sqrt (1 - a))` and `R = 6371.0`. -/
noncomputable def haversine (lat1 lon1 lat2 lon2 : ℝ) : ℝ :=
  let R : ℝ := 6371.0
  let a := hav_a lat1 lon1 lat2 lon2
  let c := 2 * atan2 (Real.sqrt a) (Real.sqrt (1 - a))
  R * c

/-! ### Data model (source lines 21–35) -/

/-- `Incident` dataclass (source lines 21–27). -/
structure Incident (K : Type) where
  id : ℤ
  lat : K
  lon : K
  severity : K
  demand : ℤ
deriving DecidableEq

/-- `Resource` dataclass (source lines 29–35). -/
structure Resource (K : Type) where
  id : ℤ
  lat : K
  lon : K
  capacity : ℤ
  type : String
deriving DecidableEq

/-- An allocation record, one dict appended to `allocations`
(source lines 89–94). -/
structure AllocationRecord (K : Type) where
  incident_id : ℤ
  resource_id : ℤ
  units_assigned : ℤ
  distance_km : K
deriving DecidableEq

/-! ### Rounding -/

/-- Python's `round` to an integer: round half to even (banker's rounding). -/
def pyRound {K : Type} [LinearOrderedField K] [FloorRing K] (x : K) : ℤ :=
  if Int.fract x < 1 / 2 then ⌊x⌋
  else if 1 / 2 < Int.fract x then ⌊x⌋ + 1
  else if ⌊x⌋ % 2 = 0 then ⌊x⌋ else ⌊x⌋ + 1

/-- Python's `round(x, 2)` (source line 93): round to two decimal places,
half to even. -/
def round2 {K : Type} [LinearOrderedField K] [FloorRing K] (x : K) : K :=
  (pyRound (100 * x) : K) / 100

/-! ### The allocation engine (source lines 67–99) -/

section Engine

variable {K : Type} [LinearOrderedField K] [FloorRing K]

/-- The candidate score (source line 79): `severity / (1.0 + dist)`. -/
def score (severity dist : K) : K := severity / (1 + dist)

/-- One member of the `candidates` list (source line 80): the Python tuple
`(score, res, dist)`.  The `res` component is a reference to a mutable
`Resource` object; here the object is identified by its index `resIdx`
into the caller's resource list, which carries the mutable state. -/
structure Candidate (K : Type) where
  score : K
  resIdx : ℕ
  dist : K
deriving DecidableEq

/-- The default used with `List.getD`; candidate indices are always in
bounds, so it is never actually consulted. -/
def defaultResource (K : Type) [LinearOrderedField K] : Resource K :=
  ⟨0, 0, 0, 0, ""⟩

/-- Candidate construction (source lines 76–80): scan `resources` in
order, keeping those with `capacity > 0`; `i` is the index of the head
of `l` within the full resource list. -/
def buildCandidatesAux (dfn : Incident K → Resource K → K) (inc : Incident K) :
    ℕ → List (Resource K) → List (Candidate K)
  | _, [] => []
  | i, res :: rest =>
    if 0 < res.capacity then
      let dist := dfn inc res
      ⟨score inc.severity dist, i, dist⟩ :: buildCandidatesAux dfn inc (i + 1) rest
    else buildCandidatesAux dfn inc (i + 1) rest

/-- The `candidates` list of source lines 73–80, before sorting. -/
def buildCandidates (dfn : Incident K → Resource K → K) (inc : Incident K)
    (resources : List (Resource K)) : List (Candidate K) :=
  buildCandidatesAux dfn inc 0 resources

/-- The comparison used by `candidates.sort(key=lambda x: -x[0])`
(source line 82): ascending `-score`, i.e. descending score. -/
def candLe (a b : Candidate K) : Prop := b.score ≤ a.score

instance : DecidableRel (@candLe K _) := fun a b =>
  inferInstanceAs (Decidable (b.score ≤ a.score))

instance : IsTotal (Candidate K) candLe :=
  ⟨fun a b => le_total b.score a.score⟩

instance : IsTrans (Candidate K) candLe :=
  ⟨fun _ _ _ h1 h2 => le_trans h2 h1⟩

/-- `candidates.sort(key=lambda x: -x[0])` (source line 82): a stable
sort by descending score. -/
def sortCandidates (l : List (Candidate K)) : List (Candidate K) :=
  l.insertionSort candLe

/-- The sorted candidate list an incident is served from. -/
def candidatesSorted (dfn : Incident K → Resource K → K) (inc : Incident K)
    (resources : List (Resource K)) : List (Candidate K) :=
  sortCandidates (buildCandidates dfn inc resources)

/-- The inner assignment loop (source lines 84–97): walk the sorted
candidates; stop when `remaining <= 0`; otherwise assign
`min remaining res.capacity` units, emit a record, and decrement the
resource's capacity in the state list. -/
def assignLoop (inc : Incident K) :
    List (Candidate K) → ℤ → List (Resource K) →
      List (AllocationRecord K) × List (Resource K)
  | [], _, resources => ([], resources)
  | c :: rest, remaining, resources =>
    if remaining ≤ 0 then ([], resources)
    else
      let res := resources.getD c.resIdx (defaultResource K)
      let assigned := min remaining res.capacity
      let record : AllocationRecord K :=
        ⟨inc.id, res.id, assigned, round2 c.dist⟩
      let resources' := resources.set c.resIdx { res with capacity := res.capacity - assigned }
      let next := assignLoop inc rest (remaining - assigned) resources'
      (record :: next.1, next.2)

/-- Processing of one incident (source lines 71–97): build and sort the
candidates, then run the assignment loop starting from
`remaining = inc.demand`. -/
def processIncident (dfn : Incident K → Resource K → K)
    (resources : List (Resource K)) (inc : Incident K) :
    List (AllocationRecord K) × List (Resource K) :=
  assignLoop inc (candidatesSorted dfn inc resources) inc.demand resources

/-- The comparison realising `sorted(incidents, key=lambda x:
(-x.severity, -x.demand))` (source line 69): ascending lexicographic
order on `(-severity, -demand)`, i.e. descending severity with ties
broken by descending demand. -/
def incLe (a b : Incident K) : Prop :=
  b.severity < a.severity ∨ (a.severity = b.severity ∧ b.demand ≤ a.demand)

instance : DecidableRel (@incLe K _) := fun a b =>
  inferInstanceAs (Decidable (_ ∨ _))

instance : IsTotal (Incident K) incLe := by
  constructor
  intro a b
  rcases lt_trichotomy a.severity b.severity with h | h | h
  · exact Or.inr (Or.inl h)
  · rcases le_total a.demand b.demand with hd | hd
    · exact Or.inr (Or.inr ⟨h.symm, hd⟩)
    · exact Or.inl (Or.inr ⟨h, hd⟩)
  · exact Or.inl (Or.inl h)

instance : IsTrans (Incident K) incLe := by
  constructor
  rintro a b c (h1 | ⟨h1, h1d⟩) (h2 | ⟨h2, h2d⟩)
  · exact Or.inl (h2.trans h1)
  · exact Or.inl (h2 ▸ h1)
  · exact Or.inl (h1 ▸ h2)
  · exact Or.inr ⟨h1.trans h2, h2d.trans h1d⟩

/-- `incidents_sorted` (source line 69). -/
def sortIncidents (incidents : List (Incident K)) : List (Incident K) :=
  incidents.insertionSort incLe

/-- The loop over sorted incidents (source lines 71–97), threading the
resource state and accumulating the allocation log. -/
def allocGo (dfn : Incident K → Resource K → K) :
    List (Incident K) → List (Resource K) →
      List (AllocationRecord K) × List (Resource K)
  | [], resources => ([], resources)
  | inc :: rest, resources =>
    let step := processIncident dfn resources inc
    let next := allocGo dfn rest step.2
    (step.1 ++ next.1, next.2)

/-- `allocate_resources` (source lines 67–99).  The Python function
mutates its `resources` argument in place and never writes to
`incidents`; the embedding therefore returns, alongside the allocation
log, the post-call state of both argument lists. -/
def allocate_resources (dfn : Incident K → Resource K → K)
    (incidents : List (Incident K)) (resources : List (Resource K)) :
    List (AllocationRecord K) × List (Incident K) × List (Resource K) :=
  let incidents_sorted := sortIncidents incidents
  let run := allocGo dfn incidents_sorted resources
  (run.1, incidents, run.2)

end Engine

/-! ### Derived observers used to state the specification's properties -/

section Observers

variable {K : Type} [LinearOrderedField K] [FloorRing K]

/-- The resource object at index `j` of the state list. -/
def resAt (rss : List (Resource K)) (j : ℕ) : Resource K :=
  rss.getD j (defaultResource K)

/-- All fields of a `Resource` except the mutable `capacity`. -/
def shape (r : Resource K) : ℤ × K × K × String :=
  (r.id, r.lat, r.lon, r.type)

/-- Total units assigned to the resource with identifier `rid` over a
list of allocation records. -/
def unitsForResource (rid : ℤ) (recs : List (AllocationRecord K)) : ℤ :=
  ((recs.filter fun r => decide (r.resource_id = rid)).map (·.units_assigned)).sum

/-- Total units assigned to the incident with identifier `iid` over a
list of allocation records. -/
def unitsForIncident (iid : ℤ) (recs : List (AllocationRecord K)) : ℤ :=
  ((recs.filter fun r => decide (r.incident_id = iid)).map (·.units_assigned)).sum

/-- Sum of the remaining capacities of all resources in a state list. -/
def totalCapacity (rss : List (Resource K)) : ℤ :=
  (rss.map (·.capacity)).sum

/-- The state resulting from one assignment step of `assignLoop` at
candidate index `i` with `remaining = rem`. -/
def stepState (rss : List (Resource K)) (i : ℕ) (rem : ℤ) : List (Resource K) :=
  rss.set i
    { resAt rss i with capacity := (resAt rss i).capacity - min rem (resAt rss i).capacity }

/-- The record emitted by one assignment step of `assignLoop`. -/
def stepRecord (inc : Incident K) (rss : List (Resource K)) (c : Candidate K)
    (rem : ℤ) : AllocationRecord K :=
  ⟨inc.id, (resAt rss c.resIdx).id, min rem (resAt rss c.resIdx).capacity, round2 c.dist⟩

end Observers

/-! ### Haversine facts (claim C4) -/

lemma radians_sub (u v : ℝ) : radians (u - v) = radians u - radians v := by
  unfold radians; ring

lemma sin_sq_add_cos_mul_cos (x y : ℝ) :
    Real.sin x ^ 2 + Real.cos (y - x) * Real.cos (y + x) = Real.cos y ^ 2 := by
  rw [Real.cos_sub, Real.cos_add]
  linear_combination (Real.cos y ^ 2) * Real.sin_sq_add_cos_sq x -
    (Real.sin x ^ 2) * Real.sin_sq_add_cos_sq y

lemma hav_a_eq (lat1 lon1 lat2 lon2 : ℝ) :
    hav_a lat1 lon1 lat2 lon2 =
      Real.sin (radians (lat2 - lat1) / 2) ^ 2 *
          (1 - Real.sin (radians (lon2 - lon1) / 2) ^ 2) +
        Real.cos ((radians lat1 + radians lat2) / 2) ^ 2 *
          Real.sin (radians (lon2 - lon1) / 2) ^ 2 := by
  have key := sin_sq_add_cos_mul_cos ((radians lat2 - radians lat1) / 2)
    ((radians lat1 + radians lat2) / 2)
  have h1 : (radians lat1 + radians lat2) / 2 - (radians lat2 - radians lat1) / 2 =
      radians lat1 := by ring
  have h2 : (radians lat1 + radians lat2) / 2 + (radians lat2 - radians lat1) / 2 =
      radians lat2 := by ring
  rw [h1, h2] at key
  unfold hav_a
  rw [radians_sub lat2 lat1]
  nlinarith [key]

lemma hav_a_nonneg (lat1 lon1 lat2 lon2 : ℝ) : 0 ≤ hav_a lat1 lon1 lat2 lon2 := by
  rw [hav_a_eq]
  have h1 := Real.sin_sq_le_one (radians (lon2 - lon1) / 2)
  have h2 := sq_nonneg (Real.sin (radians (lat2 - lat1) / 2))
  have h3 := sq_nonneg (Real.cos ((radians lat1 + radians lat2) / 2))
  have h4 := sq_nonneg (Real.sin (radians (lon2 - lon1) / 2))
  nlinarith

lemma hav_a_le_one (lat1 lon1 lat2 lon2 : ℝ) : hav_a lat1 lon1 lat2 lon2 ≤ 1 := by
  rw [hav_a_eq]
  have h1 := Real.sin_sq_le_one (radians (lon2 - lon1) / 2)
  have h2 := Real.sin_sq_le_one (radians (lat2 - lat1) / 2)
  have h3 := Real.cos_sq_le_one ((radians lat1 + radians lat2) / 2)
  have h4 := sq_nonneg (Real.sin (radians (lon2 - lon1) / 2))
  nlinarith

lemma atan2_nonneg {y x : ℝ} (hy : 0 ≤ y) (hx : 0 ≤ x) : 0 ≤ atan2 y x := by
  unfold atan2
  rcases lt_or_eq_of_le hx with hx' | hx'
  · rw [if_pos hx']
    have : (0 : ℝ) ≤ y / x := div_nonneg hy hx'.le
    calc (0 : ℝ) = Real.arctan 0 := Real.arctan_zero.symm
      _ ≤ Real.arctan (y / x) := Real.arctan_strictMono.monotone this
  · rw [if_neg (by rw [← hx']; exact lt_irrefl 0), if_neg (by rw [← hx']; exact lt_irrefl 0)]
    rcases lt_or_eq_of_le hy with hy' | hy'
    · rw [if_pos hy']
      positivity
    · rw [if_neg (by rw [← hy']; exact lt_irrefl 0), if_neg (by rw [← hy']; exact lt_irrefl 0)]

lemma haversine_nonneg (lat1 lon1 lat2 lon2 : ℝ) : 0 ≤ haversine lat1 lon1 lat2 lon2 := by
  unfold haversine
  have h := atan2_nonneg (Real.sqrt_nonneg (hav_a lat1 lon1 lat2 lon2))
    (Real.sqrt_nonneg (1 - hav_a lat1 lon1 lat2 lon2))
  positivity

/-- The distance function the program instantiates the engine with:
`haversine(inc.lat, inc.lon, res.lat, res.lon)` (source line 78). -/
noncomputable def haversineDist (inc : Incident ℝ) (res : Resource ℝ) : ℝ :=
  haversine inc.lat inc.lon res.lat res.lon

/-- The program's allocation run (source line 108), over the reals. -/
noncomputable def runAllocation (incidents : List (Incident ℝ))
    (resources : List (Resource ℝ)) :
    List (AllocationRecord ℝ) × List (Incident ℝ) × List (Resource ℝ) :=
  allocate_resources haversineDist incidents resources

/-! ### Basic lemmas about the engine's state transitions -/

section EngineLemmas

variable {K : Type} [LinearOrderedField K] [FloorRing K]

lemma pyRound_nonneg {x : K} (hx : 0 ≤ x) : 0 ≤ pyRound x := by
  have h0 : (0 : ℤ) ≤ ⌊x⌋ := Int.floor_nonneg.mpr hx
  unfold pyRound
  split
  · exact h0
  · split
    · omega
    · split
      · exact h0
      · omega

lemma round2_nonneg {x : K} (hx : 0 ≤ x) : 0 ≤ round2 x := by
  unfold round2
  have h : (0 : ℤ) ≤ pyRound (100 * x) := pyRound_nonneg (by positivity)
  positivity

lemma unitsForResource_nil (rid : ℤ) :
    unitsForResource rid ([] : List (AllocationRecord K)) = 0 := rfl

lemma unitsForResource_cons (rid : ℤ) (r : AllocationRecord K)
    (l : List (AllocationRecord K)) :
    unitsForResource rid (r :: l) =
      (if r.resource_id = rid then r.units_assigned else 0) + unitsForResource rid l := by
  unfold unitsForResource
  rw [List.filter_cons]
  by_cases h : r.resource_id = rid
  · simp [h]
  · simp [h]

lemma unitsForResource_append (rid : ℤ) (l₁ l₂ : List (AllocationRecord K)) :
    unitsForResource rid (l₁ ++ l₂) =
      unitsForResource rid l₁ + unitsForResource rid l₂ := by
  unfold unitsForResource
  rw [List.filter_append, List.map_append, List.sum_append]

lemma unitsForIncident_nil (iid : ℤ) :
    unitsForIncident iid ([] : List (AllocationRecord K)) = 0 := rfl

lemma unitsForIncident_append (iid : ℤ) (l₁ l₂ : List (AllocationRecord K)) :
    unitsForIncident iid (l₁ ++ l₂) =
      unitsForIncident iid l₁ + unitsForIncident iid l₂ := by
  unfold unitsForIncident
  rw [List.filter_append, List.map_append, List.sum_append]

lemma resAt_set_self {rss : List (Resource K)} {i : ℕ} (h : i < rss.length)
    (a : Resource K) : resAt (rss.set i a) i = a := by
  unfold resAt
  rw [List.getD_eq_getElem?_getD, List.getElem?_set_self h]
  rfl

lemma resAt_set_ne {rss : List (Resource K)} {i j : ℕ} (h : i ≠ j)
    (a : Resource K) : resAt (rss.set i a) j = resAt rss j := by
  unfold resAt
  rw [List.getD_eq_getElem?_getD, List.getElem?_set_ne h, ← List.getD_eq_getElem?_getD]

lemma resAt_eq_getElem {rss : List (Resource K)} {j : ℕ} (h : j < rss.length) :
    resAt rss j = rss[j] := by
  unfold resAt
  rw [List.getD_eq_getElem?_getD, List.getElem?_eq_getElem h]
  rfl

lemma getD_map_shape (rss : List (Resource K)) (j : ℕ) :
    (rss.map shape).getD j (shape (defaultResource K)) = shape (resAt rss j) := by
  unfold resAt
  rw [List.getD_eq_getElem?_getD, List.getD_eq_getElem?_getD, List.getElem?_map]
  cases rss[j]? <;> rfl

lemma shape_resAt_of_map_shape {rss rss' : List (Resource K)}
    (h : rss.map shape = rss'.map shape) (j : ℕ) :
    shape (resAt rss j) = shape (resAt rss' j) := by
  rw [← getD_map_shape, ← getD_map_shape, h]

/-- Equation lemmas for `assignLoop`. -/
lemma assignLoop_nil (inc : Incident K) (rem : ℤ) (rss : List (Resource K)) :
    assignLoop inc [] rem rss = ([], rss) := rfl

lemma assignLoop_cons_stop (inc : Incident K) (c : Candidate K)
    (rest : List (Candidate K)) {rem : ℤ} (h : rem ≤ 0) (rss : List (Resource K)) :
    assignLoop inc (c :: rest) rem rss = ([], rss) := by
  simp [assignLoop, h]

lemma assignLoop_cons_go (inc : Incident K) (c : Candidate K)
    (rest : List (Candidate K)) {rem : ℤ} (h : 0 < rem) (rss : List (Resource K)) :
    assignLoop inc (c :: rest) rem rss =
      (stepRecord inc rss c rem ::
        (assignLoop inc rest (rem - min rem (resAt rss c.resIdx).capacity)
          (stepState rss c.resIdx rem)).1,
       (assignLoop inc rest (rem - min rem (resAt rss c.resIdx).capacity)
          (stepState rss c.resIdx rem)).2) := by
  simp [assignLoop, not_le.mpr h, stepRecord, stepState, resAt]

lemma length_stepState (rss : List (Resource K)) (i : ℕ) (rem : ℤ) :
    (stepState rss i rem).length = rss.length := by
  unfold stepState
  exact List.length_set ..

lemma map_shape_stepState (rss : List (Resource K)) (i : ℕ) (rem : ℤ) :
    (stepState rss i rem).map shape = rss.map shape := by
  unfold stepState
  rw [List.map_set]
  apply List.ext_getElem?
  intro n
  rw [List.getElem?_set]
  split
  · rename_i hin
    subst hin
    split
    · rename_i hlt
      rw [List.length_map] at hlt
      rw [List.getElem?_map, List.getElem?_eq_getElem hlt]
      have he : resAt rss i = rss[i] := resAt_eq_getElem hlt
      simp [← he, shape]
    · rename_i hge
      rw [List.length_map] at hge
      rw [List.getElem?_map, List.getElem?_eq_none (by omega)]
      rfl
  · rfl

lemma assignLoop_state_length (inc : Incident K) :
    ∀ (cands : List (Candidate K)) (rem : ℤ) (rss : List (Resource K)),
      ((assignLoop inc cands rem rss).2).length = rss.length
  | [], _, _ => rfl
  | c :: rest, rem, rss => by
    by_cases h : rem ≤ 0
    · rw [assignLoop_cons_stop inc c rest h rss]
    · rw [assignLoop_cons_go inc c rest (not_le.mp h) rss]
      rw [assignLoop_state_length inc rest _ _]
      exact length_stepState ..

lemma assignLoop_map_shape (inc : Incident K) :
    ∀ (cands : List (Candidate K)) (rem : ℤ) (rss : List (Resource K)),
      ((assignLoop inc cands rem rss).2).map shape = rss.map shape
  | [], _, _ => rfl
  | c :: rest, rem, rss => by
    by_cases h : rem ≤ 0
    · rw [assignLoop_cons_stop inc c rest h rss]
    · rw [assignLoop_cons_go inc c rest (not_le.mp h) rss]
      rw [assignLoop_map_shape inc rest _ _]
      exact map_shape_stepState ..

lemma assignLoop_untouched (inc : Incident K) :
    ∀ (cands : List (Candidate K)) (rem : ℤ) (rss : List (Resource K)) (j : ℕ),
      j ∉ cands.map (·.resIdx) →
      resAt ((assignLoop inc cands rem rss).2) j = resAt rss j
  | [], _, _, _, _ => rfl
  | c :: rest, rem, rss, j, hj => by
    rw [List.map_cons, List.mem_cons] at hj
    push_neg at hj
    by_cases h : rem ≤ 0
    · rw [assignLoop_cons_stop inc c rest h rss]
    · rw [assignLoop_cons_go inc c rest (not_le.mp h) rss]
      rw [assignLoop_untouched inc rest _ _ j hj.2]
      unfold stepState
      exact resAt_set_ne (fun he => hj.1 he.symm) _

lemma capacity_resAt_stepState_nonneg {rss : List (Resource K)}
    (hn : ∀ j, 0 ≤ (resAt rss j).capacity) (i : ℕ) (rem : ℤ) :
    ∀ j, 0 ≤ (resAt (stepState rss i rem) j).capacity := by
  intro j
  by_cases hij : i = j
  · subst hij
    by_cases hlen : i < rss.length
    · rw [stepState, resAt_set_self hlen]
      have := min_le_right rem (resAt rss i).capacity
      simp only
      omega
    · have : stepState rss i rem = rss := by
        unfold stepState
        exact List.set_eq_of_length_le (by omega)
      rw [this]
      exact hn i
  · rw [stepState, resAt_set_ne hij]
    exact hn j

lemma assignLoop_capacity_nonneg (inc : Incident K) :
    ∀ (cands : List (Candidate K)) (rem : ℤ) (rss : List (Resource K)),
      (∀ j, 0 ≤ (resAt rss j).capacity) →
      ∀ j, 0 ≤ (resAt ((assignLoop inc cands rem rss).2) j).capacity
  | [], _, _, hn, _ => hn _
  | c :: rest, rem, rss, hn, j => by
    by_cases h : rem ≤ 0
    · rw [assignLoop_cons_stop inc c rest h rss]; exact hn j
    · rw [assignLoop_cons_go inc c rest (not_le.mp h) rss]
      exact assignLoop_capacity_nonneg inc rest _ _
        (capacity_resAt_stepState_nonneg hn c.resIdx rem) j

lemma assignLoop_incident_id (inc : Incident K) :
    ∀ (cands : List (Candidate K)) (rem : ℤ) (rss : List (Resource K)),
      ∀ r ∈ (assignLoop inc cands rem rss).1, r.incident_id = inc.id
  | [], _, _, r, hr => by simp [assignLoop_nil] at hr
  | c :: rest, rem, rss, r, hr => by
    by_cases h : rem ≤ 0
    · rw [assignLoop_cons_stop inc c rest h rss] at hr
      simp at hr
    · rw [assignLoop_cons_go inc c rest (not_le.mp h) rss] at hr
      rcases List.mem_cons.mp hr with h1 | h1
      · subst h1; rfl
      · exact assignLoop_incident_id inc rest _ _ r h1

lemma assignLoop_record_origin (inc : Incident K) :
    ∀ (cands : List (Candidate K)) (rem : ℤ) (rss : List (Resource K)),
      ∀ r ∈ (assignLoop inc cands rem rss).1,
        ∃ c ∈ cands, r.distance_km = round2 c.dist ∧
          r.resource_id = (resAt rss c.resIdx).id
  | [], _, _, r, hr => by simp [assignLoop_nil] at hr
  | c :: rest, rem, rss, r, hr => by
    by_cases h : rem ≤ 0
    · rw [assignLoop_cons_stop inc c rest h rss] at hr
      simp at hr
    · rw [assignLoop_cons_go inc c rest (not_le.mp h) rss] at hr
      rcases List.mem_cons.mp hr with h1 | h1
      · exact ⟨c, List.mem_cons_self .., by rw [h1]; exact ⟨rfl, rfl⟩⟩
      · obtain ⟨c', hc', hd, hid⟩ := assignLoop_record_origin inc rest _ _ r h1
        refine ⟨c', List.mem_cons_of_mem _ hc', hd, ?_⟩
        rw [hid]
        have hs := shape_resAt_of_map_shape (map_shape_stepState rss c.resIdx rem) c'.resIdx
        have : (resAt (stepState rss c.resIdx rem) c'.resIdx).id =
            (resAt rss c'.resIdx).id := by
          have := congrArg Prod.fst hs
          simpa [shape] using this
        rw [this]

lemma map_resource_id_of_map_shape {rss rss' : List (Resource K)}
    (h : rss.map shape = rss'.map shape) :
    rss.map (·.id) = rss'.map (·.id) := by
  have h1 := congrArg (List.map Prod.fst) h
  rw [List.map_map, List.map_map] at h1
  exact h1

lemma id_ne_of_nodup {rss : List (Resource K)} (hids : (rss.map (·.id)).Nodup)
    {i j : ℕ} (hi : i < rss.length) (hj : j < rss.length) (hij : i ≠ j) :
    (resAt rss i).id ≠ (resAt rss j).id := by
  intro he
  have hi' : i < (rss.map (·.id)).length := by rwa [List.length_map]
  have hj' : j < (rss.map (·.id)).length := by rwa [List.length_map]
  have hgi : (rss.map (·.id))[i] = (resAt rss i).id := by
    rw [List.getElem_map, ← resAt_eq_getElem hi]
  have hgj : (rss.map (·.id))[j] = (resAt rss j).id := by
    rw [List.getElem_map, ← resAt_eq_getElem hj]
  exact hij (hids.getElem_inj_iff.mp (by rw [hgi, hgj, he]))

lemma stepState_preserves_hyps {cands : List (Candidate K)} (rss : List (Resource K))
    {i : ℕ} (hi : i ∉ cands.map (·.resIdx)) (rem : ℤ) :
    (∀ c ∈ cands, (resAt (stepState rss i rem) c.resIdx) = resAt rss c.resIdx) := by
  intro c hc
  unfold stepState
  refine resAt_set_ne (fun he => hi ?_) _
  rw [he]
  exact List.mem_map.mpr ⟨c, hc, rfl⟩

lemma assignLoop_units_pos (inc : Incident K) :
    ∀ (cands : List (Candidate K)) (rem : ℤ) (rss : List (Resource K)),
      (∀ c ∈ cands, 0 < (resAt rss c.resIdx).capacity) →
      (cands.map (·.resIdx)).Nodup →
      ∀ r ∈ (assignLoop inc cands rem rss).1, 0 < r.units_assigned
  | [], _, _, _, _, r, hr => by simp [assignLoop_nil] at hr
  | c :: rest, rem, rss, hpos, hnd, r, hr => by
    by_cases h : rem ≤ 0
    · rw [assignLoop_cons_stop inc c rest h rss] at hr
      simp at hr
    · rw [assignLoop_cons_go inc c rest (not_le.mp h) rss] at hr
      rw [List.map_cons, List.nodup_cons] at hnd
      rcases List.mem_cons.mp hr with h1 | h1
      · subst h1
        have hg := hpos c (List.mem_cons_self ..)
        show 0 < min rem (resAt rss c.resIdx).capacity
        omega
      · refine assignLoop_units_pos inc rest _ _ ?_ hnd.2 r h1
        intro c' hc'
        rw [stepState_preserves_hyps rss hnd.1 rem c' hc']
        exact hpos c' (List.mem_cons_of_mem _ hc')

lemma assignLoop_units_eq (inc : Incident K) :
    ∀ (cands : List (Candidate K)) (rem : ℤ) (rss : List (Resource K)),
      (∀ c ∈ cands, c.resIdx < rss.length) →
      (rss.map (·.id)).Nodup →
      ∀ j, j < rss.length →
        unitsForResource ((resAt rss j).id) (assignLoop inc cands rem rss).1 =
          (resAt rss j).capacity - (resAt ((assignLoop inc cands rem rss).2) j).capacity
  | [], _, _, _, _, j, _ => by
    rw [assignLoop_nil]
    dsimp only
    rw [unitsForResource_nil]
    omega
  | c :: rest, rem, rss, hlen, hids, j, hj => by
    by_cases h : rem ≤ 0
    · rw [assignLoop_cons_stop inc c rest h rss]
      dsimp only
      rw [unitsForResource_nil]
      omega
    · rw [assignLoop_cons_go inc c rest (not_le.mp h) rss]
      dsimp only
      rw [unitsForResource_cons]
      simp only [stepRecord]
      have hi : c.resIdx < rss.length := hlen c (List.mem_cons_self ..)
      have hlen' : ∀ c' ∈ rest, c'.resIdx < (stepState rss c.resIdx rem).length := by
        intro c' hc'
        rw [length_stepState]
        exact hlen c' (List.mem_cons_of_mem _ hc')
      have hids' : ((stepState rss c.resIdx rem).map (·.id)).Nodup := by
        rw [map_resource_id_of_map_shape (map_shape_stepState rss c.resIdx rem)]
        exact hids
      have hj' : j < (stepState rss c.resIdx rem).length := by
        rw [length_stepState]; exact hj
      have ih := assignLoop_units_eq inc rest
        (rem - min rem (resAt rss c.resIdx).capacity)
        (stepState rss c.resIdx rem) hlen' hids' j hj'
      by_cases hij : c.resIdx = j
      · subst hij
        have hset : resAt (stepState rss c.resIdx rem) c.resIdx =
            { resAt rss c.resIdx with
              capacity := (resAt rss c.resIdx).capacity -
                min rem (resAt rss c.resIdx).capacity } := by
          unfold stepState
          exact resAt_set_self hi _
        rw [hset] at ih
        simp only at ih
        rw [if_pos rfl]
        omega
      · have hne : (resAt rss c.resIdx).id ≠ (resAt rss j).id :=
          id_ne_of_nodup hids hi hj hij
        rw [if_neg hne]
        have hset : resAt (stepState rss c.resIdx rem) j = resAt rss j := by
          unfold stepState
          exact resAt_set_ne hij _
        rw [hset] at ih
        omega

lemma assignLoop_total (inc : Incident K) :
    ∀ (cands : List (Candidate K)) (rem : ℤ) (rss : List (Resource K)),
      (∀ c ∈ cands, 0 < (resAt rss c.resIdx).capacity) →
      (cands.map (·.resIdx)).Nodup →
      0 ≤ rem →
      ((assignLoop inc cands rem rss).1.map (·.units_assigned)).sum =
        min rem ((cands.map fun c => (resAt rss c.resIdx).capacity).sum)
  | [], rem, rss, _, _, hrem => by
    rw [assignLoop_nil]
    simp only [List.map_nil, List.sum_nil]
    omega
  | c :: rest, rem, rss, hpos, hnd, hrem => by
    rw [List.map_cons, List.nodup_cons] at hnd
    have hS : 0 ≤ ((c :: rest).map fun c => (resAt rss c.resIdx).capacity).sum := by
      apply List.sum_nonneg
      intro x hx
      obtain ⟨c', hc', rfl⟩ := List.mem_map.mp hx
      exact (hpos c' hc').le
    by_cases h : rem ≤ 0
    · rw [assignLoop_cons_stop inc c rest h rss]
      simp only [List.map_nil, List.sum_nil]
      omega
    · rw [assignLoop_cons_go inc c rest (not_le.mp h) rss]
      have hpres := stepState_preserves_hyps rss hnd.1 rem
      have hpos' : ∀ c' ∈ rest, 0 < (resAt (stepState rss c.resIdx rem) c'.resIdx).capacity := by
        intro c' hc'
        rw [hpres c' hc']
        exact hpos c' (List.mem_cons_of_mem _ hc')
      have hrem' : 0 ≤ rem - min rem (resAt rss c.resIdx).capacity := by
        have := min_le_left rem (resAt rss c.resIdx).capacity
        omega
      have ih := assignLoop_total inc rest
        (rem - min rem (resAt rss c.resIdx).capacity)
        (stepState rss c.resIdx rem) hpos' hnd.2 hrem'
      have hmap : (rest.map fun c'' => (resAt (stepState rss c.resIdx rem) c''.resIdx).capacity) =
          rest.map fun c'' => (resAt rss c''.resIdx).capacity :=
        List.map_congr_left fun c' hc' => congrArg Resource.capacity (hpres c' hc')
      rw [hmap] at ih
      dsimp only
      simp only [List.map_cons, List.sum_cons, stepRecord]
      rw [ih]
      have hrest : 0 ≤ (rest.map fun c' => (resAt rss c'.resIdx).capacity).sum := by
        apply List.sum_nonneg
        intro x hx
        obtain ⟨c', hc', rfl⟩ := List.mem_map.mp hx
        exact (hpos c' (List.mem_cons_of_mem _ hc')).le
      have hg := hpos c (List.mem_cons_self ..)
      omega

/-! ### Candidate construction lemmas -/

lemma buildCandidatesAux_mem (dfn : Incident K → Resource K → K) (inc : Incident K) :
    ∀ (l : List (Resource K)) (i : ℕ) (c : Candidate K),
      c ∈ buildCandidatesAux dfn inc i l →
      ∃ j, j < l.length ∧ c.resIdx = i + j ∧
        0 < (l.getD j (defaultResource K)).capacity ∧
        c.dist = dfn inc (l.getD j (defaultResource K)) ∧
        c.score = score inc.severity c.dist
  | [], i, c, hc => by simp [buildCandidatesAux] at hc
  | r :: rest, i, c, hc => by
    unfold buildCandidatesAux at hc
    by_cases hr : 0 < r.capacity
    · rw [if_pos hr] at hc
      rcases List.mem_cons.mp hc with h1 | h1
      · subst h1
        exact ⟨0, by simp, rfl, by simpa using hr, rfl, rfl⟩
      · obtain ⟨j, hj, hidx, hcap, hdist, hsc⟩ :=
          buildCandidatesAux_mem dfn inc rest (i + 1) c h1
        exact ⟨j + 1, by simpa using hj, by omega, hcap, hdist, hsc⟩
    · rw [if_neg hr] at hc
      obtain ⟨j, hj, hidx, hcap, hdist, hsc⟩ :=
        buildCandidatesAux_mem dfn inc rest (i + 1) c hc
      exact ⟨j + 1, by simpa using hj, by omega, hcap, hdist, hsc⟩

lemma buildCandidates_mem {dfn : Incident K → Resource K → K} {inc : Incident K}
    {rss : List (Resource K)} {c : Candidate K} (hc : c ∈ buildCandidates dfn inc rss) :
    c.resIdx < rss.length ∧ 0 < (resAt rss c.resIdx).capacity ∧
      c.dist = dfn inc (resAt rss c.resIdx) ∧
      c.score = score inc.severity c.dist := by
  obtain ⟨j, hj, hidx, hcap, hdist, hsc⟩ := buildCandidatesAux_mem dfn inc rss 0 c hc
  have hidx' : c.resIdx = j := by omega
  subst hidx'
  exact ⟨hj, hcap, hdist, hsc⟩

lemma buildCandidatesAux_idx_lb (dfn : Incident K → Resource K → K) (inc : Incident K)
    (l : List (Resource K)) (i : ℕ) (c : Candidate K)
    (hc : c ∈ buildCandidatesAux dfn inc i l) : i ≤ c.resIdx := by
  obtain ⟨j, _, hidx, _, _, _⟩ := buildCandidatesAux_mem dfn inc l i c hc
  omega

lemma buildCandidatesAux_idx_pairwise (dfn : Incident K → Resource K → K) (inc : Incident K) :
    ∀ (l : List (Resource K)) (i : ℕ),
      ((buildCandidatesAux dfn inc i l).map (·.resIdx)).Pairwise (· < ·)
  | [], _ => by simp [buildCandidatesAux]
  | r :: rest, i => by
    unfold buildCandidatesAux
    by_cases hr : 0 < r.capacity
    · rw [if_pos hr]
      rw [List.map_cons, List.pairwise_cons]
      constructor
      · intro n hn
        obtain ⟨c', hc', rfl⟩ := List.mem_map.mp hn
        have := buildCandidatesAux_idx_lb dfn inc rest (i + 1) c' hc'
        show i < c'.resIdx
        omega
      · exact buildCandidatesAux_idx_pairwise dfn inc rest (i + 1)
    · rw [if_neg hr]
      exact buildCandidatesAux_idx_pairwise dfn inc rest (i + 1)

lemma buildCandidates_idx_pairwise (dfn : Incident K → Resource K → K) (inc : Incident K)
    (rss : List (Resource K)) :
    ((buildCandidates dfn inc rss).map (·.resIdx)).Pairwise (· < ·) :=
  buildCandidatesAux_idx_pairwise dfn inc rss 0

lemma buildCandidates_idx_nodup (dfn : Incident K → Resource K → K) (inc : Incident K)
    (rss : List (Resource K)) :
    ((buildCandidates dfn inc rss).map (·.resIdx)).Nodup :=
  (buildCandidates_idx_pairwise dfn inc rss).imp ne_of_lt

lemma buildCandidatesAux_capacity_sum (dfn : Incident K → Resource K → K) (inc : Incident K)
    (rss : List (Resource K)) :
    ∀ (l : List (Resource K)) (i : ℕ), l = rss.drop i →
      ((buildCandidatesAux dfn inc i l).map fun c => (resAt rss c.resIdx).capacity).sum =
        (l.map fun r => if 0 < r.capacity then r.capacity else 0).sum
  | [], _, _ => by simp [buildCandidatesAux]
  | r :: rest, i, hl => by
    have hi : i < rss.length := by
      by_contra hge
      rw [List.drop_eq_nil_of_le (by omega)] at hl
      exact List.noConfusion hl
    have hcons : rss[i] :: rss.drop (i + 1) = rss.drop i := List.getElem_cons_drop rss i hi
    rw [← hcons] at hl
    obtain ⟨hr, hrest⟩ := List.cons_eq_cons.mp hl
    have hres : resAt rss i = r := by rw [resAt_eq_getElem hi, hr]
    unfold buildCandidatesAux
    by_cases hcap : 0 < r.capacity
    · rw [if_pos hcap]
      rw [List.map_cons, List.sum_cons, List.map_cons, List.sum_cons]
      rw [buildCandidatesAux_capacity_sum dfn inc rss rest (i + 1) hrest]
      rw [if_pos hcap]
      simp only
      rw [hres]
    · rw [if_neg hcap]
      rw [List.map_cons, List.sum_cons]
      rw [buildCandidatesAux_capacity_sum dfn inc rss rest (i + 1) hrest]
      rw [if_neg hcap]
      omega

lemma buildCandidates_capacity_sum (dfn : Incident K → Resource K → K) (inc : Incident K)
    (rss : List (Resource K)) (hn : ∀ r ∈ rss, 0 ≤ r.capacity) :
    ((buildCandidates dfn inc rss).map fun c => (resAt rss c.resIdx).capacity).sum =
      totalCapacity rss := by
  unfold buildCandidates totalCapacity
  rw [buildCandidatesAux_capacity_sum dfn inc rss rss 0 (by simp)]
  congr 1
  apply List.map_congr_left
  intro r hr
  by_cases hcap : 0 < r.capacity
  · rw [if_pos hcap]
  · rw [if_neg hcap]
    have := hn r hr
    omega

/-! ### Sorted-candidate lemmas -/

lemma sortCandidates_perm (l : List (Candidate K)) : List.Perm (sortCandidates l) l :=
  List.perm_insertionSort _ _

lemma mem_sortCandidates {l : List (Candidate K)} {c : Candidate K} :
    c ∈ sortCandidates l ↔ c ∈ l :=
  List.mem_insertionSort _

lemma sortCandidates_sorted (l : List (Candidate K)) :
    List.Sorted candLe (sortCandidates l) :=
  List.sorted_insertionSort _ _

lemma candidatesSorted_mem {dfn : Incident K → Resource K → K} {inc : Incident K}
    {rss : List (Resource K)} {c : Candidate K} (hc : c ∈ candidatesSorted dfn inc rss) :
    c.resIdx < rss.length ∧ 0 < (resAt rss c.resIdx).capacity ∧
      c.dist = dfn inc (resAt rss c.resIdx) ∧
      c.score = score inc.severity c.dist :=
  buildCandidates_mem (mem_sortCandidates.mp hc)

lemma candidatesSorted_idx_nodup (dfn : Incident K → Resource K → K) (inc : Incident K)
    (rss : List (Resource K)) :
    ((candidatesSorted dfn inc rss).map (·.resIdx)).Nodup := by
  have hperm := (sortCandidates_perm (buildCandidates dfn inc rss)).map (·.resIdx)
  exact hperm.nodup_iff.mpr (buildCandidates_idx_nodup dfn inc rss)

lemma candidatesSorted_capacity_sum (dfn : Incident K → Resource K → K) (inc : Incident K)
    (rss : List (Resource K)) (hn : ∀ r ∈ rss, 0 ≤ r.capacity) :
    ((candidatesSorted dfn inc rss).map fun c => (resAt rss c.resIdx).capacity).sum =
      totalCapacity rss := by
  have hperm := (sortCandidates_perm (buildCandidates dfn inc rss)).map
    fun c => (resAt rss c.resIdx).capacity
  unfold candidatesSorted
  rw [hperm.sum_eq]
  exact buildCandidates_capacity_sum dfn inc rss hn

/-! ### Per-incident lemmas -/

lemma forall_resAt_nonneg_iff {rss : List (Resource K)} :
    (∀ j, 0 ≤ (resAt rss j).capacity) ↔ ∀ r ∈ rss, 0 ≤ r.capacity := by
  constructor
  · intro h r hr
    obtain ⟨j, hj, rfl⟩ := List.getElem_of_mem hr
    have := h j
    rwa [resAt_eq_getElem hj] at this
  · intro h j
    by_cases hj : j < rss.length
    · rw [resAt_eq_getElem hj]
      exact h _ (List.getElem_mem hj)
    · unfold resAt
      rw [List.getD_eq_getElem?_getD, List.getElem?_eq_none (by omega)]
      exact le_refl 0

lemma processIncident_state_length (dfn : Incident K → Resource K → K)
    (rss : List (Resource K)) (inc : Incident K) :
    ((processIncident dfn rss inc).2).length = rss.length :=
  assignLoop_state_length inc _ _ _

lemma processIncident_map_shape (dfn : Incident K → Resource K → K)
    (rss : List (Resource K)) (inc : Incident K) :
    ((processIncident dfn rss inc).2).map shape = rss.map shape :=
  assignLoop_map_shape inc _ _ _

lemma processIncident_capacity_nonneg (dfn : Incident K → Resource K → K)
    {rss : List (Resource K)} (hn : ∀ r ∈ rss, 0 ≤ r.capacity) (inc : Incident K) :
    ∀ r ∈ (processIncident dfn rss inc).2, 0 ≤ r.capacity := by
  rw [← forall_resAt_nonneg_iff]
  exact assignLoop_capacity_nonneg inc _ _ _ (forall_resAt_nonneg_iff.mpr hn)

lemma processIncident_incident_id (dfn : Incident K → Resource K → K)
    (rss : List (Resource K)) (inc : Incident K) :
    ∀ r ∈ (processIncident dfn rss inc).1, r.incident_id = inc.id :=
  assignLoop_incident_id inc _ _ _

lemma processIncident_units_pos (dfn : Incident K → Resource K → K)
    (rss : List (Resource K)) (inc : Incident K) :
    ∀ r ∈ (processIncident dfn rss inc).1, 0 < r.units_assigned :=
  assignLoop_units_pos inc _ _ _
    (fun c hc => (candidatesSorted_mem hc).2.1)
    (candidatesSorted_idx_nodup dfn inc rss)

lemma processIncident_distance_nonneg (dfn : Incident K → Resource K → K)
    (hd : ∀ i r, 0 ≤ dfn i r) (rss : List (Resource K)) (inc : Incident K) :
    ∀ r ∈ (processIncident dfn rss inc).1, 0 ≤ r.distance_km := by
  intro r hr
  obtain ⟨c, hc, hdist, _⟩ := assignLoop_record_origin inc _ _ _ r hr
  rw [hdist]
  apply round2_nonneg
  rw [(candidatesSorted_mem hc).2.2.1]
  exact hd inc _

lemma processIncident_units_eq (dfn : Incident K → Resource K → K)
    {rss : List (Resource K)} (hids : (rss.map (·.id)).Nodup) (inc : Incident K) :
    ∀ j, j < rss.length →
      unitsForResource ((resAt rss j).id) (processIncident dfn rss inc).1 =
        (resAt rss j).capacity - (resAt ((processIncident dfn rss inc).2) j).capacity :=
  assignLoop_units_eq inc _ _ _
    (fun c hc => (candidatesSorted_mem hc).1) hids

lemma processIncident_total (dfn : Incident K → Resource K → K)
    {rss : List (Resource K)} (hn : ∀ r ∈ rss, 0 ≤ r.capacity) {inc : Incident K}
    (hdem : 0 ≤ inc.demand) :
    (((processIncident dfn rss inc).1).map (·.units_assigned)).sum =
      min inc.demand (totalCapacity rss) := by
  unfold processIncident
  rw [assignLoop_total inc _ _ _
    (fun c hc => (candidatesSorted_mem hc).2.1)
    (candidatesSorted_idx_nodup dfn inc rss) hdem]
  rw [candidatesSorted_capacity_sum dfn inc rss hn]

lemma processIncident_total_le (dfn : Incident K → Resource K → K)
    (rss : List (Resource K)) {inc : Incident K} (hdem : 0 ≤ inc.demand) :
    (((processIncident dfn rss inc).1).map (·.units_assigned)).sum ≤ inc.demand := by
  unfold processIncident
  rw [assignLoop_total inc _ _ _
    (fun c hc => (candidatesSorted_mem hc).2.1)
    (candidatesSorted_idx_nodup dfn inc rss) hdem]
  exact min_le_left ..

lemma processIncident_no_exhausted_resource (dfn : Incident K → Resource K → K)
    {rss : List (Resource K)} (hids : (rss.map (·.id)).Nodup) (inc : Incident K)
    {j : ℕ} (hj : j < rss.length) (hcap : (resAt rss j).capacity ≤ 0) :
    ∀ r ∈ (processIncident dfn rss inc).1, r.resource_id ≠ (resAt rss j).id := by
  intro r hr he
  obtain ⟨c, hc, _, hid⟩ := assignLoop_record_origin inc _ _ _ r hr
  obtain ⟨hlt, hpos, _, _⟩ := candidatesSorted_mem hc
  by_cases hij : c.resIdx = j
  · rw [hij] at hpos
    omega
  · exact id_ne_of_nodup hids hlt hj hij (by rw [← hid, he])

lemma processIncident_exhausted_untouched (dfn : Incident K → Resource K → K)
    (rss : List (Resource K)) (inc : Incident K)
    {j : ℕ} (hcap : (resAt rss j).capacity ≤ 0) :
    resAt ((processIncident dfn rss inc).2) j = resAt rss j := by
  apply assignLoop_untouched
  intro hmem
  obtain ⟨c, hc, rfl⟩ := List.mem_map.mp hmem
  have := (candidatesSorted_mem hc).2.1
  omega

/-! ### Whole-run lemmas -/

lemma unitsForIncident_all {iid : ℤ} {recs : List (AllocationRecord K)}
    (h : ∀ r ∈ recs, r.incident_id = iid) :
    unitsForIncident iid recs = (recs.map (·.units_assigned)).sum := by
  unfold unitsForIncident
  rw [List.filter_eq_self.mpr (fun r hr => by simp [h r hr])]

lemma unitsForIncident_zero {iid : ℤ} {recs : List (AllocationRecord K)}
    (h : ∀ r ∈ recs, r.incident_id ≠ iid) :
    unitsForIncident iid recs = 0 := by
  unfold unitsForIncident
  rw [List.filter_eq_nil_iff.mpr (fun r hr => by simp [h r hr])]
  rfl

lemma allocGo_state_length (dfn : Incident K → Resource K → K) :
    ∀ (incs : List (Incident K)) (rss : List (Resource K)),
      ((allocGo dfn incs rss).2).length = rss.length
  | [], _ => rfl
  | inc :: rest, rss => by
    show ((allocGo dfn rest (processIncident dfn rss inc).2).2).length = rss.length
    rw [allocGo_state_length dfn rest _]
    exact processIncident_state_length dfn rss inc

lemma allocGo_map_shape (dfn : Incident K → Resource K → K) :
    ∀ (incs : List (Incident K)) (rss : List (Resource K)),
      ((allocGo dfn incs rss).2).map shape = rss.map shape
  | [], _ => rfl
  | inc :: rest, rss => by
    show ((allocGo dfn rest (processIncident dfn rss inc).2).2).map shape = rss.map shape
    rw [allocGo_map_shape dfn rest _]
    exact processIncident_map_shape dfn rss inc

lemma allocGo_capacity_nonneg (dfn : Incident K → Resource K → K) :
    ∀ (incs : List (Incident K)) (rss : List (Resource K)),
      (∀ r ∈ rss, 0 ≤ r.capacity) →
      ∀ r ∈ (allocGo dfn incs rss).2, 0 ≤ r.capacity
  | [], _, hn => hn
  | inc :: rest, rss, hn => by
    show ∀ r ∈ (allocGo dfn rest (processIncident dfn rss inc).2).2, 0 ≤ r.capacity
    exact allocGo_capacity_nonneg dfn rest _
      (processIncident_capacity_nonneg dfn hn inc)

lemma allocGo_incident_ids (dfn : Incident K → Resource K → K) :
    ∀ (incs : List (Incident K)) (rss : List (Resource K)),
      ∀ r ∈ (allocGo dfn incs rss).1, r.incident_id ∈ incs.map (·.id)
  | [], _, r, hr => by simp [allocGo] at hr
  | inc :: rest, rss, r, hr => by
    rcases List.mem_append.mp hr with h1 | h1
    · rw [processIncident_incident_id dfn rss inc r h1]
      exact List.mem_cons_self ..
    · exact List.mem_cons_of_mem _ (allocGo_incident_ids dfn rest _ r h1)

lemma allocGo_units_pos (dfn : Incident K → Resource K → K) :
    ∀ (incs : List (Incident K)) (rss : List (Resource K)),
      ∀ r ∈ (allocGo dfn incs rss).1, 0 < r.units_assigned
  | [], _, r, hr => by simp [allocGo] at hr
  | inc :: rest, rss, r, hr => by
    rcases List.mem_append.mp hr with h1 | h1
    · exact processIncident_units_pos dfn rss inc r h1
    · exact allocGo_units_pos dfn rest _ r h1

lemma allocGo_distance_nonneg (dfn : Incident K → Resource K → K)
    (hd : ∀ i r, 0 ≤ dfn i r) :
    ∀ (incs : List (Incident K)) (rss : List (Resource K)),
      ∀ r ∈ (allocGo dfn incs rss).1, 0 ≤ r.distance_km
  | [], _, r, hr => by simp [allocGo] at hr
  | inc :: rest, rss, r, hr => by
    rcases List.mem_append.mp hr with h1 | h1
    · exact processIncident_distance_nonneg dfn hd rss inc r h1
    · exact allocGo_distance_nonneg dfn hd rest _ r h1

lemma allocGo_units_eq (dfn : Incident K → Resource K → K) :
    ∀ (incs : List (Incident K)) (rss : List (Resource K)),
      (rss.map (·.id)).Nodup →
      ∀ j, j < rss.length →
        unitsForResource ((resAt rss j).id) (allocGo dfn incs rss).1 =
          (resAt rss j).capacity - (resAt ((allocGo dfn incs rss).2) j).capacity
  | [], rss, _, j, _ => by
    show unitsForResource ((resAt rss j).id) [] = _
    rw [unitsForResource_nil]
    show (0 : ℤ) = (resAt rss j).capacity - (resAt rss j).capacity
    omega
  | inc :: rest, rss, hids, j, hj => by
    have hshape := processIncident_map_shape dfn rss inc
    have hids' : (((processIncident dfn rss inc).2).map (·.id)).Nodup := by
      rw [map_resource_id_of_map_shape hshape]; exact hids
    have hj' : j < ((processIncident dfn rss inc).2).length := by
      rw [processIncident_state_length]; exact hj
    have hid_eq : (resAt ((processIncident dfn rss inc).2) j).id = (resAt rss j).id := by
      have := shape_resAt_of_map_shape hshape j
      exact congrArg Prod.fst this
    show unitsForResource ((resAt rss j).id)
        ((processIncident dfn rss inc).1 ++ (allocGo dfn rest (processIncident dfn rss inc).2).1) =
      (resAt rss j).capacity -
        (resAt ((allocGo dfn rest (processIncident dfn rss inc).2).2) j).capacity
    rw [unitsForResource_append]
    rw [processIncident_units_eq dfn hids inc j hj]
    have ih := allocGo_units_eq dfn rest ((processIncident dfn rss inc).2) hids' j hj'
    rw [hid_eq] at ih
    rw [ih]
    omega

lemma allocGo_groups (dfn : Incident K → Resource K → K) :
    ∀ (incs : List (Incident K)) (rss : List (Resource K)),
      ∃ gs : List (List (AllocationRecord K)),
        (allocGo dfn incs rss).1 = gs.join ∧
        List.Forall₂ (fun g (inc : Incident K) => ∀ r ∈ g, r.incident_id = inc.id) gs incs
  | [], _ => ⟨[], rfl, List.Forall₂.nil⟩
  | inc :: rest, rss => by
    obtain ⟨gs, hgs, hfa⟩ := allocGo_groups dfn rest ((processIncident dfn rss inc).2)
    refine ⟨(processIncident dfn rss inc).1 :: gs, ?_, ?_⟩
    · show (processIncident dfn rss inc).1 ++ (allocGo dfn rest (processIncident dfn rss inc).2).1 = _
      rw [hgs]
      rfl
    · exact List.Forall₂.cons (processIncident_incident_id dfn rss inc) hfa

lemma allocGo_zero_cap (dfn : Incident K → Resource K → K) :
    ∀ (incs : List (Incident K)) (rss : List (Resource K)),
      (rss.map (·.id)).Nodup →
      ∀ j, j < rss.length → (resAt rss j).capacity ≤ 0 →
        ∀ r ∈ (allocGo dfn incs rss).1, r.resource_id ≠ (resAt rss j).id
  | [], _, _, _, _, _, r, hr => by simp [allocGo] at hr
  | inc :: rest, rss, hids, j, hj, hcap, r, hr => by
    have hshape := processIncident_map_shape dfn rss inc
    have hids' : (((processIncident dfn rss inc).2).map (·.id)).Nodup := by
      rw [map_resource_id_of_map_shape hshape]; exact hids
    have hj' : j < ((processIncident dfn rss inc).2).length := by
      rw [processIncident_state_length]; exact hj
    have huntouched := processIncident_exhausted_untouched dfn rss inc hcap
    rcases List.mem_append.mp hr with h1 | h1
    · exact processIncident_no_exhausted_resource dfn hids inc hj hcap r h1
    · have ih := allocGo_zero_cap dfn rest ((processIncident dfn rss inc).2) hids' j hj'
        (by rw [huntouched]; exact hcap) r h1
      rwa [huntouched] at ih

lemma allocGo_demand_bound (dfn : Incident K → Resource K → K) :
    ∀ (incs : List (Incident K)) (rss : List (Resource K)),
      (∀ inc ∈ incs, 0 ≤ inc.demand) →
      ((incs.map (·.id)).Nodup) →
      ∀ inc ∈ incs, unitsForIncident inc.id (allocGo dfn incs rss).1 ≤ inc.demand
  | [], _, _, _, inc, hinc => by simp at hinc
  | inc0 :: rest, rss, hdem, hnd, inc, hinc => by
    rw [List.map_cons, List.nodup_cons] at hnd
    show unitsForIncident inc.id
        ((processIncident dfn rss inc0).1 ++ (allocGo dfn rest (processIncident dfn rss inc0).2).1)
      ≤ inc.demand
    rw [unitsForIncident_append]
    rcases List.mem_cons.mp hinc with h1 | h1
    · subst h1
      have h2 : unitsForIncident inc.id (allocGo dfn rest (processIncident dfn rss inc).2).1 = 0 := by
        apply unitsForIncident_zero
        intro r hr he
        have := allocGo_incident_ids dfn rest _ r hr
        rw [he] at this
        exact hnd.1 this
      rw [h2,
        unitsForIncident_all (processIncident_incident_id dfn rss inc)]
      have := processIncident_total_le dfn rss (hdem inc (List.mem_cons_self ..))
      omega
    · have h0 : unitsForIncident inc.id (processIncident dfn rss inc0).1 = 0 := by
        apply unitsForIncident_zero
        intro r hr he
        rw [processIncident_incident_id dfn rss inc0 r hr] at he
        exact hnd.1 (he ▸ List.mem_map.mpr ⟨inc, h1, rfl⟩)
      have ih := allocGo_demand_bound dfn rest ((processIncident dfn rss inc0).2)
        (fun i hi => hdem i (List.mem_cons_of_mem _ hi)) hnd.2 inc h1
      omega

/-! ### Incident-sort lemmas -/

lemma sortIncidents_perm (l : List (Incident K)) : List.Perm (sortIncidents l) l :=
  List.perm_insertionSort _ _

lemma sortIncidents_sorted (l : List (Incident K)) :
    List.Sorted incLe (sortIncidents l) :=
  List.sorted_insertionSort _ _

lemma sortIncidents_stable {a b : Incident K} {l : List (Incident K)}
    (hab : incLe a b) (h : [a, b].Sublist l) : [a, b].Sublist (sortIncidents l) :=
  List.pair_sublist_insertionSort hab h

/-! ### Score monotonicity helpers -/

lemma score_lt_score_of_dist_lt {sev d1 d2 : K} (hsev : 0 < sev) (h1 : 0 ≤ d1)
    (h12 : d1 < d2) : score sev d2 < score sev d1 :=
  div_lt_div_of_pos_left hsev (by linarith) (by linarith)

lemma score_lt_score_of_sev_lt {s1 s2 d : K} (hd : 0 ≤ d) (h12 : s1 < s2) :
    score s1 d < score s2 d :=
  div_lt_div_of_pos_right h12 (by linarith)

lemma score_le_sev {sev d : K} (hsev : 0 < sev) (hd : 0 ≤ d) : score sev d ≤ sev :=
  div_le_self hsev.le (by linarith)

lemma score_zero_dist (sev : K) : score sev 0 = sev := by
  unfold score
  rw [add_zero, div_one]

lemma dist_le_of_score_le {sev d1 d2 : K} (hsev : 0 < sev) (h1 : 0 ≤ d1) (h2 : 0 ≤ d2)
    (h : score sev d2 ≤ score sev d1) : d1 ≤ d2 := by
  by_contra hlt
  push_neg at hlt
  exact absurd h (not_le.mpr (score_lt_score_of_dist_lt hsev h2 hlt))

lemma candidatesSorted_rank (dfn : Incident K → Resource K → K) (inc : Incident K)
    (rss : List (Resource K)) (hsev : 0 < inc.severity) (hd : ∀ r, 0 ≤ dfn inc r) :
    ∀ p q : Fin (candidatesSorted dfn inc rss).length, p < q →
      ((candidatesSorted dfn inc rss).get p).dist ≤
        ((candidatesSorted dfn inc rss).get q).dist := by
  intro p q hpq
  have hsorted : List.Sorted candLe (candidatesSorted dfn inc rss) :=
    sortCandidates_sorted _
  have hrel := hsorted.rel_get_of_lt hpq
  have hp := candidatesSorted_mem (List.get_mem (candidatesSorted dfn inc rss) p.1 p.2)
  have hq := candidatesSorted_mem (List.get_mem (candidatesSorted dfn inc rss) q.1 q.2)
  have hdp : 0 ≤ ((candidatesSorted dfn inc rss).get p).dist := by
    rw [hp.2.2.1]; exact hd _
  have hdq : 0 ≤ ((candidatesSorted dfn inc rss).get q).dist := by
    rw [hq.2.2.1]; exact hd _
  apply dist_le_of_score_le hsev hdp hdq
  unfold candLe at hrel
  rw [hp.2.2.2, hq.2.2.2] at hrel
  exact hrel

/-! ### Stability of the candidate sort -/

lemma sortCandidates_filter_score_eq (l : List (Candidate K)) (v : K) :
    (sortCandidates l).filter (fun c => decide (c.score = v)) =
      l.filter (fun c => decide (c.score = v)) := by
  set p : Candidate K → Bool := fun c => decide (c.score = v) with hp
  have hpair : (l.filter p).Pairwise candLe := by
    apply List.pairwise_of_forall_mem_list
    intro a ha b hb
    have ha' : a.score = v := by simpa [hp] using List.of_mem_filter ha
    have hb' : b.score = v := by simpa [hp] using List.of_mem_filter hb
    unfold candLe
    rw [ha', hb']
  have hsub : (l.filter p).Sublist (sortCandidates l) :=
    List.sublist_insertionSort hpair (List.filter_sublist l)
  have hsub2 : ((l.filter p).filter p).Sublist ((sortCandidates l).filter p) :=
    hsub.filter p
  rw [List.filter_eq_self.mpr (fun a ha => @List.of_mem_filter _ p a _ ha)] at hsub2
  have hperm : List.Perm ((sortCandidates l).filter p) (l.filter p) :=
    (sortCandidates_perm l).filter p
  exact ((hsub2.eq_of_length hperm.length_eq.symm).symm)

lemma candidatesSorted_tiebreak (dfn : Incident K → Resource K → K) (inc : Incident K)
    (rss : List (Resource K)) {a b : Candidate K}
    (hsub : [a, b].Sublist (candidatesSorted dfn inc rss))
    (heq : a.score = b.score) : a.resIdx < b.resIdx := by
  set p : Candidate K → Bool := fun c => decide (c.score = b.score) with hp
  have hfab : [a, b].filter p = [a, b] := by
    apply List.filter_eq_self.mpr
    intro r hr
    rcases List.mem_cons.mp hr with h1 | h1
    · subst h1; simp [hp, heq]
    · rcases List.mem_cons.mp h1 with h2 | h2
      · subst h2; simp [hp]
      · simp at h2
  have hsub2 : ([a, b].filter p).Sublist
      ((candidatesSorted dfn inc rss).filter p) := hsub.filter p
  rw [hfab] at hsub2
  rw [candidatesSorted, sortCandidates_filter_score_eq] at hsub2
  have hidx : ((buildCandidates dfn inc rss).filter p).Pairwise
      (fun c1 c2 : Candidate K => c1.resIdx < c2.resIdx) := by
    have hmap : (((buildCandidates dfn inc rss).filter p).map (·.resIdx)).Sublist
        ((buildCandidates dfn inc rss).map (·.resIdx)) :=
      (List.filter_sublist _).map _
    have hpw := List.Pairwise.sublist hmap (buildCandidates_idx_pairwise dfn inc rss)
    exact (List.pairwise_map.mp hpw)
  have hfin := List.Pairwise.sublist hsub2 hidx
  exact (@List.pairwise_pair (Candidate K)
    (fun c1 c2 : Candidate K => c1.resIdx < c2.resIdx) a b).mp hfin

end EngineLemmas

/-! ## Claim theorems -/

section Claims

variable {K : Type} [LinearOrderedField K] [FloorRing K]

/-- **C1** (capacity conservation).  For inputs respecting the data model
(non-negative initial capacities, unique resource identifiers): for every
resource, the total `units_assigned` over all records referencing it is
at most its initial capacity, and its final capacity equals the initial
capacity minus that total.  Moreover the assignment loop — the only code
that writes capacities — carries any state with non-negative capacities
to a state with non-negative capacities, so capacity never becomes
negative at any point during the run of `allocate_resources`. -/
theorem capacity_conservation_spec
    (dfn : Incident K → Resource K → K) (incidents : List (Incident K))
    (resources : List (Resource K))
    (hcap : ∀ r ∈ resources, 0 ≤ r.capacity)
    (hids : (resources.map (·.id)).Nodup) :
    (∀ j, j < resources.length →
      unitsForResource ((resAt resources j).id)
          (allocate_resources dfn incidents resources).1 ≤ (resAt resources j).capacity ∧
      (resAt (allocate_resources dfn incidents resources).2.2 j).capacity =
        (resAt resources j).capacity -
          unitsForResource ((resAt resources j).id)
            (allocate_resources dfn incidents resources).1) ∧
    (∀ (inc : Incident K) (cands : List (Candidate K)) (rem : ℤ)
        (rss : List (Resource K)),
      (∀ r ∈ rss, 0 ≤ r.capacity) →
      ∀ r ∈ (assignLoop inc cands rem rss).2, 0 ≤ r.capacity) := by
  constructor
  · intro j hj
    have heq : unitsForResource ((resAt resources j).id)
        (allocate_resources dfn incidents resources).1 =
        (resAt resources j).capacity -
          (resAt ((allocate_resources dfn incidents resources).2.2) j).capacity :=
      allocGo_units_eq dfn (sortIncidents incidents) resources hids j hj
    have hnn : 0 ≤ (resAt ((allocate_resources dfn incidents resources).2.2) j).capacity :=
      forall_resAt_nonneg_iff.mpr
        (allocGo_capacity_nonneg dfn (sortIncidents incidents) resources hcap) j
    exact ⟨by omega, by omega⟩
  · intro inc cands rem rss hn r hr
    exact forall_resAt_nonneg_iff.mp
      (assignLoop_capacity_nonneg inc cands rem rss (forall_resAt_nonneg_iff.mpr hn)) r hr

/-- Witness for C1 at a concrete input. -/
theorem capacity_conservation_witness :
    (∀ r ∈ ([⟨1, 0, 0, 3, "Medical"⟩] : List (Resource ℚ)), 0 ≤ r.capacity) ∧
    ((([⟨1, 0, 0, 3, "Medical"⟩] : List (Resource ℚ)).map (·.id)).Nodup) ∧
    unitsForResource ((resAt ([⟨1, 0, 0, 3, "Medical"⟩] : List (Resource ℚ)) 0).id)
        (allocate_resources (fun _ _ => (0 : ℚ)) [⟨1, 0, 0, 10, 5⟩]
          [⟨1, 0, 0, 3, "Medical"⟩]).1 ≤
      (resAt ([⟨1, 0, 0, 3, "Medical"⟩] : List (Resource ℚ)) 0).capacity :=
  ⟨by decide, by decide,
    ((capacity_conservation_spec (fun _ _ => (0 : ℚ)) [⟨1, 0, 0, 10, 5⟩]
      [⟨1, 0, 0, 3, "Medical"⟩] (by decide) (by decide)).1 0 (by decide)).1⟩

/-- **C2** (demand bound with shortfall only on exhaustion).  For inputs
respecting the data model (non-negative demands, unique incident
identifiers): every incident's total assigned units is at most its
demand; and at the moment an incident is processed — i.e. for
`processIncident` run from any resource state with non-negative
capacities — its total assigned units equals the minimum of its demand
and the sum of the remaining capacities of all resources. -/
theorem demand_bound_spec
    (dfn : Incident K → Resource K → K) (incidents : List (Incident K))
    (resources : List (Resource K))
    (hdem : ∀ inc ∈ incidents, 0 ≤ inc.demand)
    (hnd : (incidents.map (·.id)).Nodup) :
    (∀ inc ∈ incidents,
      unitsForIncident inc.id (allocate_resources dfn incidents resources).1 ≤ inc.demand) ∧
    (∀ (rss : List (Resource K)) (inc : Incident K),
      (∀ r ∈ rss, 0 ≤ r.capacity) → 0 ≤ inc.demand →
      ((processIncident dfn rss inc).1.map (·.units_assigned)).sum =
        min inc.demand (totalCapacity rss)) := by
  constructor
  · intro inc hinc
    have hperm := sortIncidents_perm incidents
    have hdem' : ∀ i ∈ sortIncidents incidents, 0 ≤ i.demand := fun i hi =>
      hdem i (hperm.mem_iff.mp hi)
    have hnd' : ((sortIncidents incidents).map (·.id)).Nodup :=
      ((hperm.map (·.id)).nodup_iff).mpr hnd
    exact allocGo_demand_bound dfn (sortIncidents incidents) resources hdem' hnd' inc
      (hperm.mem_iff.mpr hinc)
  · intro rss inc hn hd0
    exact processIncident_total dfn hn hd0

/-- Witness for C2 at a concrete input. -/
theorem demand_bound_witness :
    (∀ inc ∈ ([⟨1, 0, 0, 10, 5⟩] : List (Incident ℚ)), 0 ≤ inc.demand) ∧
    ((([⟨1, 0, 0, 10, 5⟩] : List (Incident ℚ)).map (·.id)).Nodup) ∧
    unitsForIncident (1 : ℤ)
        (allocate_resources (fun _ _ => (0 : ℚ)) [⟨1, 0, 0, 10, 5⟩]
          [⟨2, 0, 0, 3, "Medical"⟩]).1 ≤ 5 :=
  ⟨by decide, by decide,
    (demand_bound_spec (fun _ _ => (0 : ℚ)) [⟨1, 0, 0, 10, 5⟩]
      [⟨2, 0, 0, 3, "Medical"⟩] (by decide) (by decide)).1 ⟨1, 0, 0, 10, 5⟩ (by decide)⟩

/-- **C3** (priority ordering).  The output of `allocate_resources` is a
concatenation of per-incident groups (`Forall₂` pairs each group with
its incident), the groups following `sortIncidents incidents`; and
`sortIncidents` is exactly the stable sort by descending severity, ties
broken by descending demand: it is a permutation of the input, it is
sorted for `incLe`, and every pair already in the input order whose keys
satisfy `incLe` — in particular every pair with equal severity and equal
demand — keeps its original relative order (Scenario 4). -/
theorem priority_ordering_spec
    (dfn : Incident K → Resource K → K) (incidents : List (Incident K))
    (resources : List (Resource K)) :
    (∃ gs : List (List (AllocationRecord K)),
      (allocate_resources dfn incidents resources).1 = gs.join ∧
      List.Forall₂ (fun g (inc : Incident K) => ∀ r ∈ g, r.incident_id = inc.id) gs
        (sortIncidents incidents)) ∧
    List.Perm (sortIncidents incidents) incidents ∧
    List.Sorted incLe (sortIncidents incidents) ∧
    (∀ a b : Incident K, incLe a b → [a, b].Sublist incidents →
      [a, b].Sublist (sortIncidents incidents)) := by
  refine ⟨?_, sortIncidents_perm incidents, sortIncidents_sorted incidents,
    fun a b hab h => sortIncidents_stable hab h⟩
  obtain ⟨gs, h1, h2⟩ := allocGo_groups dfn (sortIncidents incidents) resources
  exact ⟨gs, h1, h2⟩

/-- Witness for C3 at a concrete input: two incidents with identical
severity and demand keep their input order. -/
theorem priority_ordering_witness :
    incLe (⟨1, 0, 0, 7, 2⟩ : Incident ℚ) ⟨2, 1, 1, 7, 2⟩ ∧
    ([⟨1, 0, 0, 7, 2⟩, ⟨2, 1, 1, 7, 2⟩] : List (Incident ℚ)).Sublist
      (sortIncidents [⟨1, 0, 0, 7, 2⟩, ⟨2, 1, 1, 7, 2⟩]) :=
  ⟨by decide,
    (priority_ordering_spec (fun _ _ => (0 : ℚ)) [⟨1, 0, 0, 7, 2⟩, ⟨2, 1, 1, 7, 2⟩]
      ([] : List (Resource ℚ))).2.2.2 ⟨1, 0, 0, 7, 2⟩ ⟨2, 1, 1, 7, 2⟩ (by decide)
      (List.Sublist.refl _)⟩

/-- **C4** (haversine totality and non-negativity).  For all real inputs
the intermediate value `a` lies in `[0, 1]` — so both square roots
receive non-negative arguments — and the result, computed as `R · c`
with `R = 6371.0` and `c = 2 · atan2 (√a) (√(1−a))`, is non-negative
(and, being a real number, finite; the function is total). -/
theorem haversine_safety_spec (lat1 lon1 lat2 lon2 : ℝ) :
    0 ≤ hav_a lat1 lon1 lat2 lon2 ∧ hav_a lat1 lon1 lat2 lon2 ≤ 1 ∧
    0 ≤ haversine lat1 lon1 lat2 lon2 ∧
    haversine lat1 lon1 lat2 lon2 =
      6371.0 * (2 * atan2 (Real.sqrt (hav_a lat1 lon1 lat2 lon2))
        (Real.sqrt (1 - hav_a lat1 lon1 lat2 lon2))) :=
  ⟨hav_a_nonneg lat1 lon1 lat2 lon2, hav_a_le_one lat1 lon1 lat2 lon2,
    haversine_nonneg lat1 lon1 lat2 lon2, rfl⟩

/-- **C5** (zero-capacity exclusion).  With unique resource identifiers:
a resource whose capacity is `≤ 0` at the moment an incident is
processed is not scored (it yields no candidate) and produces no record
for that incident; and a resource whose initial capacity is `≤ 0`
appears in no record of the entire run. -/
theorem zero_capacity_exclusion_spec
    (dfn : Incident K → Resource K → K) (incidents : List (Incident K))
    (resources : List (Resource K)) (hids : (resources.map (·.id)).Nodup) :
    (∀ j, j < resources.length → (resAt resources j).capacity ≤ 0 →
      ∀ r ∈ (allocate_resources dfn incidents resources).1,
        r.resource_id ≠ (resAt resources j).id) ∧
    (∀ (rss : List (Resource K)) (inc : Incident K) (j : ℕ),
      (resAt rss j).capacity ≤ 0 →
      (∀ c ∈ buildCandidates dfn inc rss, c.resIdx ≠ j) ∧
      ((rss.map (·.id)).Nodup → j < rss.length →
        ∀ r ∈ (processIncident dfn rss inc).1,
          r.resource_id ≠ (resAt rss j).id)) := by
  constructor
  · intro j hj hc r hr
    exact allocGo_zero_cap dfn (sortIncidents incidents) resources hids j hj hc r hr
  · intro rss inc j hc
    constructor
    · intro c hcand he
      have := (buildCandidates_mem hcand).2.1
      rw [he] at this
      omega
    · intro hids' hj r hr
      exact processIncident_no_exhausted_resource dfn hids' inc hj hc r hr

/-- Witness for C5 at a concrete input: a zero-capacity resource that is
geographically closest is never referenced. -/
theorem zero_capacity_exclusion_witness :
    ((([⟨1, 0, 0, 0, "Medical"⟩, ⟨2, 5, 5, 4, "Truck"⟩] : List (Resource ℚ)).map
      (·.id)).Nodup) ∧
    (resAt ([⟨1, 0, 0, 0, "Medical"⟩, ⟨2, 5, 5, 4, "Truck"⟩] : List (Resource ℚ)) 0).capacity
      ≤ 0 ∧
    ∀ r ∈ (allocate_resources (fun i res => (i.lat - res.lat) ^ 2)
        ([⟨1, 0, 0, 10, 2⟩] : List (Incident ℚ))
        [⟨1, 0, 0, 0, "Medical"⟩, ⟨2, 5, 5, 4, "Truck"⟩]).1,
      r.resource_id ≠
        (resAt ([⟨1, 0, 0, 0, "Medical"⟩, ⟨2, 5, 5, 4, "Truck"⟩] : List (Resource ℚ)) 0).id :=
  ⟨by decide, by decide,
    (zero_capacity_exclusion_spec (fun i res => (i.lat - res.lat) ^ 2)
      ([⟨1, 0, 0, 10, 2⟩] : List (Incident ℚ))
      [⟨1, 0, 0, 0, "Medical"⟩, ⟨2, 5, 5, 4, "Truck"⟩] (by decide)).1 0 (by decide)
      (by decide)⟩

/-- **C6** (record positivity).  For any distance function that is
non-negative (as `haversine` is): every record emitted by
`allocate_resources` has `units_assigned > 0` — for any integer demands,
with no non-negativity assumption on demands or capacities — and
`distance_km ≥ 0`. -/
theorem record_positivity_spec
    (dfn : Incident K → Resource K → K) (incidents : List (Incident K))
    (resources : List (Resource K)) (hd : ∀ i r, 0 ≤ dfn i r) :
    ∀ r ∈ (allocate_resources dfn incidents resources).1,
      0 < r.units_assigned ∧ 0 ≤ r.distance_km := fun r hr =>
  ⟨allocGo_units_pos dfn (sortIncidents incidents) resources r hr,
   allocGo_distance_nonneg dfn hd (sortIncidents incidents) resources r hr⟩

/-- Witness for C6 at a concrete input (note the negative demand on the
second incident). -/
theorem record_positivity_witness :
    (∀ (i : Incident ℚ) (r : Resource ℚ), 0 ≤ (fun _ _ => (0 : ℚ)) i r) ∧
    ∀ r ∈ (allocate_resources (fun _ _ => (0 : ℚ))
        ([⟨1, 0, 0, 10, 5⟩, ⟨2, 0, 0, 4, -3⟩] : List (Incident ℚ))
        [⟨1, 0, 0, 3, "Medical"⟩]).1,
      0 < r.units_assigned ∧ 0 ≤ r.distance_km :=
  ⟨fun _ _ => le_refl 0,
    record_positivity_spec (fun _ _ => (0 : ℚ))
      ([⟨1, 0, 0, 10, 5⟩, ⟨2, 0, 0, 4, -3⟩] : List (Incident ℚ))
      [⟨1, 0, 0, 3, "Medical"⟩] (fun _ _ => le_refl 0)⟩

/-- **C7** (silent partial satisfaction, Scenario 2).
`allocate_resources` is a total function — it returns normally on every
input — and on one incident of demand 5 with a single resource of
capacity 3 it returns exactly one record assigning 3 units (at the
rounded distance), the unchanged incident list, and the resource
exhausted to capacity 0: the 2 unmet units produce no further record
and no error. -/
theorem silent_partial_satisfaction_spec
    (dfn : Incident K → Resource K → K) (iid rid : ℤ)
    (ilat ilon sev rlat rlon : K) (ty : String) :
    allocate_resources dfn [⟨iid, ilat, ilon, sev, 5⟩] [⟨rid, rlat, rlon, 3, ty⟩] =
      ([⟨iid, rid, 3,
          round2 (dfn ⟨iid, ilat, ilon, sev, 5⟩ ⟨rid, rlat, rlon, 3, ty⟩)⟩],
       [⟨iid, ilat, ilon, sev, 5⟩],
       [⟨rid, rlat, rlon, 0, ty⟩]) := by
  norm_num [allocate_resources, sortIncidents, List.insertionSort, List.orderedInsert,
    allocGo, processIncident, candidatesSorted, sortCandidates, buildCandidates,
    buildCandidatesAux, assignLoop, resAt, defaultResource]

/-- **C8** (frame effect).  `allocate_resources` returns the incident
list unchanged (no `Incident` field, including `demand`, is ever
written), and the resource state it returns has the same length as the
input and the same `shape` — identifier, latitude, longitude and type —
at every position: only the `capacity` field is modified. -/
theorem frame_effect_spec
    (dfn : Incident K → Resource K → K) (incidents : List (Incident K))
    (resources : List (Resource K)) :
    (allocate_resources dfn incidents resources).2.1 = incidents ∧
    ((allocate_resources dfn incidents resources).2.2).length = resources.length ∧
    ((allocate_resources dfn incidents resources).2.2).map shape =
      resources.map shape ∧
    ∀ j, (resAt (allocate_resources dfn incidents resources).2.2 j).id =
        (resAt resources j).id ∧
      (resAt (allocate_resources dfn incidents resources).2.2 j).lat =
        (resAt resources j).lat ∧
      (resAt (allocate_resources dfn incidents resources).2.2 j).lon =
        (resAt resources j).lon ∧
      (resAt (allocate_resources dfn incidents resources).2.2 j).type =
        (resAt resources j).type := by
  refine ⟨rfl, allocGo_state_length dfn (sortIncidents incidents) resources,
    allocGo_map_shape dfn (sortIncidents incidents) resources, ?_⟩
  intro j
  have hs : shape (resAt ((allocate_resources dfn incidents resources).2.2) j) =
      shape (resAt resources j) :=
    shape_resAt_of_map_shape (allocGo_map_shape dfn (sortIncidents incidents) resources) j
  exact ⟨congrArg Prod.fst hs, congrArg (fun t => t.2.1) hs,
    congrArg (fun t => t.2.2.1) hs, congrArg (fun t => t.2.2.2) hs⟩

/-- **C9** (score monotonicity).  The score `severity / (1 + distance)`
is strictly decreasing in distance (for non-negative distances and
positive severity), strictly increasing in severity (for non-negative
distance), bounded above by the severity itself for non-negative
distance, with the bound attained at distance 0; consequently, in the
sorted candidate list of an incident with positive severity under a
non-negative distance function, a candidate at strictly smaller
distance never appears after one at strictly larger distance. -/
theorem score_monotonicity_spec
    (dfn : Incident K → Resource K → K) (inc : Incident K)
    (resources : List (Resource K)) (sev d d1 d2 s1 s2 : K) :
    (0 < sev → 0 ≤ d1 → d1 < d2 → score sev d2 < score sev d1) ∧
    (0 ≤ d → s1 < s2 → score s1 d < score s2 d) ∧
    (0 < sev → 0 ≤ d → score sev d ≤ sev) ∧
    score sev 0 = sev ∧
    (0 < inc.severity → (∀ r, 0 ≤ dfn inc r) →
      ∀ p q : Fin (candidatesSorted dfn inc resources).length, p < q →
        ((candidatesSorted dfn inc resources).get p).dist ≤
          ((candidatesSorted dfn inc resources).get q).dist) :=
  ⟨fun h1 h2 h3 => score_lt_score_of_dist_lt h1 h2 h3,
   fun h1 h2 => score_lt_score_of_sev_lt h1 h2,
   fun h1 h2 => score_le_sev h1 h2,
   score_zero_dist sev,
   fun h1 h2 => candidatesSorted_rank dfn inc resources h1 h2⟩

/-- Witness for C9 at concrete inputs. -/
theorem score_monotonicity_witness :
    (score (5 : ℚ) 2 < score 5 1) ∧
    (score (3 : ℚ) 1 < score 5 1) ∧
    (score (5 : ℚ) 1 ≤ 5) ∧
    (score (5 : ℚ) 0 = 5) ∧
    (∀ p q : Fin (candidatesSorted (fun _ _ => (0 : ℚ)) ⟨1, 0, 0, 5, 2⟩
        [⟨1, 0, 0, 3, "Medical"⟩]).length, p < q →
      ((candidatesSorted (fun _ _ => (0 : ℚ)) ⟨1, 0, 0, 5, 2⟩
        [⟨1, 0, 0, 3, "Medical"⟩]).get p).dist ≤
        ((candidatesSorted (fun _ _ => (0 : ℚ)) ⟨1, 0, 0, 5, 2⟩
          [⟨1, 0, 0, 3, "Medical"⟩]).get q).dist) := by
  have h := @score_monotonicity_spec ℚ _ _ (fun _ _ => 0) ⟨1, 0, 0, 5, 2⟩
    [⟨1, 0, 0, 3, "Medical"⟩] 5 1 1 2 3 5
  exact ⟨h.1 (by norm_num) (by norm_num) (by norm_num),
    h.2.1 (by norm_num) (by norm_num),
    h.2.2.1 (by norm_num) (by norm_num),
    h.2.2.2.1,
    h.2.2.2.2 (by norm_num) (fun _ => le_refl 0)⟩

/-- **C10** (implicit candidate tie-break).  The candidate list is built
by scanning the resources in input order — its indices are strictly
increasing — and the sort on descending score is stable, so whenever
two candidates with exactly equal scores both appear in the sorted
candidate list, the one assigned first is the one whose resource occurs
earlier in the input sequence. -/
theorem candidate_tiebreak_spec
    (dfn : Incident K → Resource K → K) (inc : Incident K)
    (resources : List (Resource K)) :
    ((buildCandidates dfn inc resources).map (·.resIdx)).Pairwise (· < ·) ∧
    (∀ a b : Candidate K, [a, b].Sublist (candidatesSorted dfn inc resources) →
      a.score = b.score → a.resIdx < b.resIdx) :=
  ⟨buildCandidates_idx_pairwise dfn inc resources,
   fun a b hsub heq => candidatesSorted_tiebreak dfn inc resources hsub heq⟩

/-- Witness for C10 at a concrete input: two equal-score candidates. -/
theorem candidate_tiebreak_witness :
    ([⟨5, 0, 0⟩, ⟨5, 1, 0⟩] : List (Candidate ℚ)).Sublist
      (candidatesSorted (fun _ _ => (0 : ℚ)) ⟨1, 0, 0, 5, 2⟩
        [⟨1, 0, 0, 3, "Medical"⟩, ⟨2, 1, 1, 4, "Truck"⟩]) ∧
    (⟨5, 0, 0⟩ : Candidate ℚ).score = (⟨5, 1, 0⟩ : Candidate ℚ).score ∧
    (⟨5, 0, 0⟩ : Candidate ℚ).resIdx < (⟨5, 1, 0⟩ : Candidate ℚ).resIdx := by
  have hsub : ([⟨5, 0, 0⟩, ⟨5, 1, 0⟩] : List (Candidate ℚ)).Sublist
      (candidatesSorted (fun _ _ => (0 : ℚ)) ⟨1, 0, 0, 5, 2⟩
        [⟨1, 0, 0, 3, "Medical"⟩, ⟨2, 1, 1, 4, "Truck"⟩]) := by
    have he : candidatesSorted (fun _ _ => (0 : ℚ)) ⟨1, 0, 0, 5, 2⟩
        [⟨1, 0, 0, 3, "Medical"⟩, ⟨2, 1, 1, 4, "Truck"⟩] =
        ([⟨5, 0, 0⟩, ⟨5, 1, 0⟩] : List (Candidate ℚ)) := by
      norm_num [candidatesSorted, sortCandidates, buildCandidates, buildCandidatesAux,
        List.insertionSort, List.orderedInsert, score, candLe]
    rw [he]
  exact ⟨hsub, rfl,
    (candidate_tiebreak_spec (fun _ _ => (0 : ℚ)) ⟨1, 0, 0, 5, 2⟩
      [⟨1, 0, 0, 3, "Medical"⟩, ⟨2, 1, 1, 4, "Truck"⟩]).2 ⟨5, 0, 0⟩ ⟨5, 1, 0⟩ hsub rfl⟩

end Claims

end PBL
